import Mathlib

/-!
Verification of the SmartExpenseTracker repository (src/expense_tracker.py)
against its natural-language specification.

Shallow embedding conventions:
* Python `float` amounts are modelled as exact rationals (`ℚ`); every Python
  float value is a dyadic rational, hence has a finite decimal expansion.
* Python strings are modelled as Lean `String`/`List Char`; the character
  classes (`\d`, `\s`, `\w`, `isalpha`) are modelled over ASCII, which covers
  all constants appearing in the source.
* `datetime.strptime` / `datetime.now` / file contents are modelled as pure
  data: the current date is threaded as a `today` argument, files as values.
* Exceptions are modelled with `Except` and explicit outcome structures.
-/

namespace SmartExpense

/-! ### Character classes (ASCII model of Python `\d`, `\s`, word chars) -/

/-- Python `str.isspace` / regex `\s` on ASCII: space, tab, newline,
carriage return, vertical tab, form feed. -/
def isPySpace (c : Char) : Bool :=
  c = ' ' ∨ c = '\t' ∨ c = '\n' ∨ c = '\r' ∨ c = '\x0b' ∨ c = '\x0c'

/-- Regex `\w` on ASCII: letters, digits and underscore. -/
def isWordChar (c : Char) : Bool :=
  c.isAlpha ∨ c.isDigit ∨ c = '_'

/-! ### Decimal numerals

`decCharsToNat` models Python `int()` on a digit string; `decParse` models
Python `float()` restricted to plain decimal numerals `\d+(\.\d*)?`, reading
the numeral exactly (as a rational). -/

/-- Value of a big-endian list of decimal digit characters (Python `int`). -/
def decCharsToNat (cs : List Char) : ℕ :=
  cs.foldl (fun a c => a * 10 + (c.toNat - 48)) 0

/-- Fueled little-endian-to-big-endian decimal printer (auxiliary). -/
def natToDecCharsAux : ℕ → ℕ → List Char
  | 0, _ => []
  | fuel + 1, n =>
    if n = 0 then [] else natToDecCharsAux fuel (n / 10) ++ [Nat.digitChar (n % 10)]

/-- Decimal digit characters of a natural number (what Python `str` prints
for a nonnegative integer). -/
def natToDecChars (n : ℕ) : List Char :=
  if n = 0 then ['0'] else natToDecCharsAux n n

/-- Exact value of a decimal numeral string: `\d+` optionally followed by
`.` and further digits.  Models Python `float()` on the numerals produced by
the receipt-amount regexes and by the CSV writer, at exact-value level
(the value `ip.fs` is the rational `(ip·10^|fs| + fs) / 10^|fs|`). -/
def decParseChars (cs : List Char) : Option ℚ :=
  if (cs.takeWhile Char.isDigit).isEmpty then none
  else
    match cs.dropWhile Char.isDigit with
    | [] => some (mkRat (decCharsToNat (cs.takeWhile Char.isDigit)) 1)
    | '.' :: fs =>
      if fs.all Char.isDigit then
        some (mkRat (decCharsToNat (cs.takeWhile Char.isDigit) * 10 ^ fs.length +
          decCharsToNat fs) (10 ^ fs.length))
      else none
    | _ => none

def decParse (s : String) : Option ℚ := decParseChars s.data

/-! ### The category vocabulary and the expense record -/

/-- The 13-element category list `EXPENSE_CATEGORIES` from the source. -/
def EXPENSE_CATEGORIES : List String :=
  ["Food & Dining", "Transportation", "Shopping", "Entertainment",
   "Bills & Utilities", "Healthcare", "Travel", "Education",
   "Business", "Personal Care", "Groceries", "Gas", "Other"]

/-- An expense record: the dictionary built by `add_expense`. -/
structure Expense where
  date : String
  amount : ℚ
  category : String
  vendor : String
  description : String
deriving DecidableEq, Repr

/-- The `ValueError`s raised by the tracker, distinguished by message. -/
inductive TrackerError where
  | invalidAmount
  | invalidCategory
  | invalidDate
  | invalidStartDate
  | invalidEndDate
deriving DecidableEq, Repr

deriving instance DecidableEq for Except

/-! ### `datetime.strptime(date, "%Y-%m-%d")`

CPython's `_strptime` compiles `%Y` to `\d\d\d\d`, `%m` to
`1[0-2]|0[1-9]|[1-9]` and `%d` to `3[0-1]|[1-2]\d|0[1-9]|[1-9]| [1-9]`,
matches from the start, rejects unconverted trailing data, and finally
builds a `datetime`, which validates the calendar date.  `monthAlts` and
`dayAlts` list the alternation branches in regex order, with the unread
remainder, so backtracking is the usual ordered search. -/

/-- Alternation branches of the `%m` pattern at the head of `cs`. -/
def monthAlts : List Char → List (ℕ × List Char)
  | a :: b :: rest =>
    (if a = '1' ∧ (b = '0' ∨ b = '1' ∨ b = '2') then [(10 + (b.toNat - 48), rest)] else []) ++
    (if a = '0' ∧ b.isDigit ∧ b ≠ '0' then [(b.toNat - 48, rest)] else []) ++
    (if a.isDigit ∧ a ≠ '0' then [(a.toNat - 48, b :: rest)] else [])
  | [a] => if a.isDigit ∧ a ≠ '0' then [(a.toNat - 48, [])] else []
  | [] => []

/-- Alternation branches of the `%d` pattern at the head of `cs`. -/
def dayAlts : List Char → List (ℕ × List Char)
  | a :: b :: rest =>
    (if a = '3' ∧ (b = '0' ∨ b = '1') then [(30 + (b.toNat - 48), rest)] else []) ++
    (if (a = '1' ∨ a = '2') ∧ b.isDigit then [((a.toNat - 48) * 10 + (b.toNat - 48), rest)] else []) ++
    (if a = '0' ∧ b.isDigit ∧ b ≠ '0' then [(b.toNat - 48, rest)] else []) ++
    (if a.isDigit ∧ a ≠ '0' then [(a.toNat - 48, b :: rest)] else []) ++
    (if a = ' ' ∧ b.isDigit ∧ b ≠ '0' then [(b.toNat - 48, rest)] else [])
  | [a] => if a.isDigit ∧ a ≠ '0' then [(a.toNat - 48, [])] else []
  | [] => []

/-- Gregorian leap year, as `datetime` uses it. -/
def isLeap (y : ℕ) : Bool := y % 4 = 0 ∧ (y % 100 ≠ 0 ∨ y % 400 = 0)

/-- Days in a month, as `datetime` validates them. -/
def daysInMonth (y m : ℕ) : ℕ :=
  if m = 2 then (if isLeap y then 29 else 28)
  else if m = 4 ∨ m = 6 ∨ m = 9 ∨ m = 11 then 30
  else 31

/-- Validity of `datetime(y, m, d)` (`MINYEAR = 1`, `MAXYEAR = 9999`). -/
def validYMD (y m d : ℕ) : Bool :=
  1 ≤ y ∧ y ≤ 9999 ∧ 1 ≤ m ∧ m ≤ 12 ∧ 1 ≤ d ∧ d ≤ daysInMonth y m

/-- `datetime.strptime(s, "%Y-%m-%d")`, returning the calendar date, or
`none` where Python raises `ValueError`. -/
def parseYMD (s : String) : Option (ℕ × ℕ × ℕ) :=
  match s.data with
  | y1 :: y2 :: y3 :: y4 :: '-' :: rest =>
    if y1.isDigit ∧ y2.isDigit ∧ y3.isDigit ∧ y4.isDigit then
      let y := decCharsToNat [y1, y2, y3, y4]
      (monthAlts rest).findSome? fun md =>
        match md.2 with
        | '-' :: r2 =>
          (dayAlts r2).findSome? fun dd =>
            if dd.2 = [] ∧ validYMD y md.1 dd.1 then some (y, md.1, dd.1) else none
        | _ => none
    else none
  | _ => none

/-- Comparison of two parsed dates, as `datetime` ordering compares them. -/
def dateLe (a b : ℕ × ℕ × ℕ) : Bool :=
  a.1 < b.1 ∨ (a.1 = b.1 ∧ (a.2.1 < b.2.1 ∨ (a.2.1 = b.2.1 ∧ a.2.2 ≤ b.2.2)))

/-! ### `ExpenseTracker.add_expense` -/

/-- Outcome of one `add_expense` call: the returned value or the raised
error, the expense list afterwards, and whether `_save_expenses` ran. -/
structure AddOutcome where
  result : Except TrackerError Expense
  expenses : List Expense
  saved : Bool
deriving Repr

/-- `ExpenseTracker.add_expense`.  `date = none` models the omitted
argument, in which case the code uses `datetime.now().strftime("%Y-%m-%d")`,
threaded here as `today`. -/
def add_expense (expenses : List Expense) (amount : ℚ)
    (category vendor description : String) (date : Option String)
    (today : String) : AddOutcome :=
  if amount < 0 then ⟨.error .invalidAmount, expenses, false⟩
  else if category ∉ EXPENSE_CATEGORIES then ⟨.error .invalidCategory, expenses, false⟩
  else
    match date with
    | none =>
      let e : Expense := ⟨today, amount, category, vendor, description⟩
      ⟨.ok e, expenses ++ [e], true⟩
    | some d =>
      match parseYMD d with
      | none => ⟨.error .invalidDate, expenses, false⟩
      | some _ =>
        let e : Expense := ⟨d, amount, category, vendor, description⟩
        ⟨.ok e, expenses ++ [e], true⟩

/-! ### `ReceiptOCR._load_vendor_categories` and `suggest_category`

Python dicts iterate in insertion order, so the vendor table is modelled as
the ordered association list written in the source. -/

/-- The keyword-to-category table from `_load_vendor_categories`, in its
defined insertion order. -/
def vendor_categories : List (String × String) :=
  [("mcdonalds", "Food & Dining"), ("burger king", "Food & Dining"),
   ("starbucks", "Food & Dining"), ("subway", "Food & Dining"),
   ("pizza", "Food & Dining"), ("restaurant", "Food & Dining"),
   ("cafe", "Food & Dining"), ("diner", "Food & Dining"),
   ("walmart", "Groceries"), ("target", "Groceries"),
   ("kroger", "Groceries"), ("safeway", "Groceries"),
   ("grocery", "Groceries"), ("supermarket", "Groceries"),
   ("market", "Groceries"),
   ("shell", "Gas"), ("exxon", "Gas"), ("chevron", "Gas"),
   ("bp", "Gas"), ("gas station", "Gas"), ("fuel", "Gas"),
   ("uber", "Transportation"), ("lyft", "Transportation"),
   ("taxi", "Transportation"), ("bus", "Transportation"),
   ("metro", "Transportation"), ("transit", "Transportation"),
   ("amazon", "Shopping"), ("ebay", "Shopping"), ("best buy", "Shopping"),
   ("costco", "Shopping"), ("mall", "Shopping"), ("store", "Shopping"),
   ("pharmacy", "Healthcare"), ("cvs", "Healthcare"),
   ("walgreens", "Healthcare"), ("clinic", "Healthcare"),
   ("hospital", "Healthcare"), ("doctor", "Healthcare"),
   ("other", "Other")]

/-- Python substring test `needle in hay` on character lists. -/
def hasSub (needle : List Char) : List Char → Bool
  | [] => needle.isEmpty
  | c :: tl => needle.isPrefixOf (c :: tl) || hasSub needle tl

/-- `ReceiptOCR.suggest_category`: scan the table in order, return the
category of the first keyword contained in the lowercased vendor string. -/
def suggest_category (vendor : String) : String :=
  match vendor_categories.find? (fun kv => hasSub kv.1.data (vendor.data.map Char.toLower)) with
  | some kv => kv.2
  | none => "Other"

/-! ### `ReceiptOCR.parse_vendor` -/

/-- Python `text.split('\n')` on character lists (keeps empty pieces). -/
def splitLines : List Char → List (List Char)
  | [] => [[]]
  | c :: tl =>
    match splitLines tl with
    | [] => [[]]
    | h :: t => if c = '\n' then [] :: h :: t else (c :: h) :: t

/-- Python `str.strip()`: remove leading and trailing whitespace. -/
def pyStrip (cs : List Char) : List Char :=
  ((cs.dropWhile isPySpace).reverse.dropWhile isPySpace).reverse

/-- Python `str.title()` on ASCII: a letter is uppercased after a
non-letter and lowercased after a letter; other characters are kept. -/
def titleAux : Bool → List Char → List Char
  | _, [] => []
  | prevAlpha, c :: tl =>
    (if c.isAlpha then (if prevAlpha then c.toLower else c.toUpper) else c) ::
      titleAux c.isAlpha tl

/-- Python `str.title()`. -/
def pyTitle (cs : List Char) : List Char := titleAux false cs

/-- The phone pattern `\d{3}-\d{3}-\d{4}` anchored at the head. -/
def phone12At : List Char → Bool
  | a :: b :: c :: '-' :: d :: e :: f :: '-' :: g :: h :: i :: j :: _ =>
    a.isDigit ∧ b.isDigit ∧ c.isDigit ∧ d.isDigit ∧ e.isDigit ∧ f.isDigit ∧
    g.isDigit ∧ h.isDigit ∧ i.isDigit ∧ j.isDigit
  | _ => false

/-- The pattern `\d{10}` anchored at the head. -/
def digits10At (cs : List Char) : Bool :=
  (cs.take 10).length = 10 ∧ (cs.take 10).all Char.isDigit

/-- `re.search(r'\d{3}-\d{3}-\d{4}|\d{10}', line)` viewed as existence. -/
def hasPhone : List Char → Bool
  | [] => false
  | c :: tl => phone12At (c :: tl) || digits10At (c :: tl) || hasPhone tl

/-- First character of a line is a digit (`re.match(r'^\d+.*')` succeeds). -/
def startsWithDigit : List Char → Bool
  | c :: _ => c.isDigit
  | [] => false

/-- One stripped line qualifies as a vendor line: length above 2, not
starting with a digit, and no phone token. -/
def vendorLineOK (stripped : List Char) : Bool :=
  stripped.length > 2 ∧ ¬ startsWithDigit stripped ∧ ¬ hasPhone stripped

/-- `ReceiptOCR.parse_vendor`: first qualifying line among the first five,
title-cased; `"Unknown Vendor"` if none qualifies. -/
def parse_vendor (text : String) : String :=
  match ((splitLines text.data).take 5).findSome?
      (fun l => if vendorLineOK (pyStrip l) then some (pyStrip l) else none) with
  | some l => String.mk (pyTitle l)
  | none => "Unknown Vendor"

/-! ### `ReceiptOCR.parse_amount`

`re.findall(pattern, text, re.MULTILINE)` scans left to right; at each
position the regex engine tries the pattern, and on success continues after
the consumed span.  Each pattern below consumes at least one character, so
`length + 1` units of fuel suffice.  For these patterns greedy matching
needs no backtracking except at the trailing `\s*$`, which is resolved
explicitly in `eolAmount`. -/

/-- Generic `findall` loop: try the matcher at every position, skipping
over consumed spans.  The matcher returns the capture and the remainder. -/
def findAllAux (m : List Char → Option (List Char × List Char)) :
    ℕ → List Char → List (List Char)
  | 0, _ => []
  | fuel + 1, cs =>
    match m cs with
    | some (cap, rest) => cap :: findAllAux m fuel rest
    | none =>
      match cs with
      | [] => []
      | _ :: tl => findAllAux m fuel tl

/-- `re.findall` over a whole character list. -/
def findAll (m : List Char → Option (List Char × List Char))
    (cs : List Char) : List (List Char) :=
  findAllAux m (cs.length + 1) cs

/-- The capture group `(\d+\.?\d*)` anchored at the head. -/
def amountTok (cs : List Char) : Option (List Char × List Char) :=
  let d1 := cs.takeWhile Char.isDigit
  if d1.isEmpty then none
  else
    match cs.dropWhile Char.isDigit with
    | '.' :: r2 =>
      some (d1 ++ '.' :: r2.takeWhile Char.isDigit, r2.dropWhile Char.isDigit)
    | r1 => some (d1, r1)

/-- A prefix pattern `key\s*:?\s*\$?(\d+\.?\d*)` anchored at the head. -/
def keyAmount (key : List Char) (cs : List Char) :
    Option (List Char × List Char) :=
  if key.isPrefixOf cs then
    let c1 := (cs.drop key.length).dropWhile isPySpace
    let c2 := match c1 with | ':' :: t => t | _ => c1
    let c3 := c2.dropWhile isPySpace
    let c4 := match c3 with | '$' :: t => t | _ => c3
    amountTok c4
  else none

/-- The pattern `\$(\d+\.?\d*)` anchored at the head. -/
def dollarAmount : List Char → Option (List Char × List Char)
  | '$' :: t => amountTok t
  | _ => none

/-- Split a whitespace run before (inclusive) its last newline, or `none`
if it has no newline: where a backtracking `\s*$` stops in multiline mode. -/
def splitAtLastNewline (ws : List Char) : Option (List Char × List Char) :=
  let rev := ws.reverse
  let a := rev.takeWhile (· ≠ '\n')
  if a.length = rev.length then none
  else some (((rev.drop (a.length + 1)).reverse), '\n' :: a.reverse)

/-- The pattern `(\d+\.\d{2})\s*$` (multiline `$`) anchored at the head:
after the two decimals, `\s*` runs to the end of the text or up to a
newline. -/
def eolAmount (cs : List Char) : Option (List Char × List Char) :=
  let d1 := cs.takeWhile Char.isDigit
  if d1.isEmpty then none
  else
    match cs.dropWhile Char.isDigit with
    | '.' :: f1 :: f2 :: r =>
      if f1.isDigit ∧ f2.isDigit then
        let ws := r.takeWhile isPySpace
        let r2 := r.dropWhile isPySpace
        if r2 = [] then some (d1 ++ '.' :: [f1, f2], [])
        else
          match splitAtLastNewline ws with
          | some (_, fromNl) => some (d1 ++ '.' :: [f1, f2], fromNl ++ r2)
          | none => none
      else none
    | _ => none

/-- All captures of the five amount patterns, in pattern order. -/
def amountCaptures (cs : List Char) : List (List Char) :=
  findAll (keyAmount "total".data) cs ++
  findAll (keyAmount "amount".data) cs ++
  findAll (keyAmount "subtotal".data) cs ++
  findAll dollarAmount cs ++
  findAll eolAmount cs

/-- Parsed captures kept by the range filter `0.01 <= amount <= 10000`. -/
def keptAmounts (text : String) : List ℚ :=
  (amountCaptures (text.data.map Char.toLower)).filterMap fun cap =>
    match decParse (String.mk cap) with
    | some q => if mkRat 1 100 ≤ q ∧ q ≤ mkRat 10000 1 then some q else none
    | none => none

/-- Python `max` over a nonempty list, as a fold. -/
def listMaxQ : ℚ → List ℚ → ℚ
  | x, [] => x
  | x, y :: tl => listMaxQ (if x ≤ y then y else x) tl

/-- `ReceiptOCR.parse_amount`: the largest kept candidate, if any. -/
def parse_amount (text : String) : Option ℚ :=
  match keptAmounts text with
  | [] => none
  | x :: tl => some (listMaxQ x tl)

/-! ### `ReceiptOCR.parse_date`

The three date patterns are matched with `re.findall` (no MULTILINE flag is
passed there, and none of them uses anchors).  Each match is a triple of
capture groups; the code then tries to build a `datetime` and returns the
first success, else today's date. -/

/-- `\d{1,2}` directly followed by `[slash-hyphen]`: the regex backtracks from two
digits to one against the separator.  Returns the digits and the remainder
after the separator. -/
def digits12Sep : List Char → Option (List Char × List Char)
  | a :: b :: rest =>
    if a.isDigit then
      if b.isDigit then
        match rest with
        | s :: r2 => if s = '/' ∨ s = '-' then some ([a, b], r2) else none
        | [] => none
      else if b = '/' ∨ b = '-' then some ([a], rest) else none
    else none
  | _ => none

/-- Trailing `\d{2,4}`: greedily take up to four digits, needing at least
two; nothing follows it in the pattern, so no backtracking occurs. -/
def digits24 (cs : List Char) : Option (List Char × List Char) :=
  let run := cs.takeWhile Char.isDigit
  if run.length < 2 then none
  else some (run.take 4, cs.drop (min run.length 4))

/-- Pattern `(\d{1,2})[slash-hyphen](\d{1,2})[slash-hyphen](\d{2,4})` anchored at the head. -/
def matchD12 (cs : List Char) :
    Option ((List Char × List Char × List Char) × List Char) :=
  match digits12Sep cs with
  | none => none
  | some (g1, c1) =>
    match digits12Sep c1 with
    | none => none
    | some (g2, c2) =>
      match digits24 c2 with
      | none => none
      | some (g3, rest) => some ((g1, g2, g3), rest)

/-- `(\d{4})` directly followed by `[slash-hyphen]` (exact count, no backtracking). -/
def digits4Sep : List Char → Option (List Char × List Char)
  | a :: b :: c :: d :: s :: rest =>
    if a.isDigit ∧ b.isDigit ∧ c.isDigit ∧ d.isDigit ∧ (s = '/' ∨ s = '-') then
      some ([a, b, c, d], rest)
    else none
  | _ => none

/-- Trailing `\d{1,2}`: greedily take up to two digits, needing at least
one; nothing follows it in the pattern. -/
def digits12End (cs : List Char) : Option (List Char × List Char) :=
  let run := cs.takeWhile Char.isDigit
  if run.isEmpty then none
  else some (run.take 2, cs.drop (min run.length 2))

/-- Pattern `(\d{4})[slash-hyphen](\d{1,2})[slash-hyphen](\d{1,2})` anchored at the head. -/
def matchY4 (cs : List Char) :
    Option ((List Char × List Char × List Char) × List Char) :=
  match digits4Sep cs with
  | none => none
  | some (g1, c1) =>
    match digits12Sep c1 with
    | none => none
    | some (g2, c2) =>
      match digits12End c2 with
      | none => none
      | some (g3, rest) => some ((g1, g2, g3), rest)

/-- Pattern `(\w{3,9})\s+(\d{1,2}),?\s+(\d{2,4})` anchored at the head.
The greedy `\w{3,9}` and `\d{1,2}` groups are followed by classes disjoint
from their own, so only the maximal runs can succeed; a maximal run longer
than the counted bound leaves a word (digit) character in front of `\s+`
on every backtracking path, so such a position fails outright. -/
def matchMonthName (cs : List Char) :
    Option ((List Char × List Char × List Char) × List Char) :=
  let w := cs.takeWhile isWordChar
  if 3 ≤ w.length ∧ w.length ≤ 9 then
    let c1 := cs.drop w.length
    let sp1 := c1.takeWhile isPySpace
    if sp1.isEmpty then none
    else
      let c2 := c1.dropWhile isPySpace
      let d := c2.takeWhile Char.isDigit
      if 1 ≤ d.length ∧ d.length ≤ 2 then
        let c3 := c2.drop d.length
        let c4 := match c3 with | ',' :: t => t | _ => c3
        let sp2 := c4.takeWhile isPySpace
        if sp2.isEmpty then none
        else
          match digits24 (c4.dropWhile isPySpace) with
          | none => none
          | some (g3, rest) => some ((w, d, g3), rest)
      else none
  else none

/-- `findall` for the triple-group date patterns. -/
def findAllTriple
    (m : List Char → Option ((List Char × List Char × List Char) × List Char)) :
    ℕ → List Char → List (List Char × List Char × List Char)
  | 0, _ => []
  | fuel + 1, cs =>
    match m cs with
    | some (caps, rest) => caps :: findAllTriple m fuel rest
    | none =>
      match cs with
      | [] => []
      | _ :: tl => findAllTriple m fuel tl

/-- English month names, lowercase, as matched by `%B` (C locale). -/
def monthNames : List String :=
  ["january", "february", "march", "april", "may", "june", "july",
   "august", "september", "october", "november", "december"]

/-- `%d` applied to the standalone day token (a full match is forced by the
following literal space in the format `%d %B %Y`). -/
def fullDay (g : List Char) : Option ℕ :=
  (dayAlts g).findSome? fun dd => if dd.2 = [] then some dd.1 else none

/-- `datetime.strptime(f"{day} {name} {year}", "%d %B %Y")`: `%B` must
consume the whole name (case-insensitively), `%Y` is exactly four digits,
and the resulting calendar date must be valid. -/
def strptimeDBY (day name year : List Char) : Option (ℕ × ℕ × ℕ) :=
  match fullDay day with
  | none => none
  | some d =>
    match (monthNames.indexOf? (String.mk (name.map Char.toLower))).map (· + 1) with
    | none => none
    | some m =>
      if year.length = 4 ∧ year.all Char.isDigit then
        let y := decCharsToNat year
        if validYMD y m d then some (y, m, d) else none
      else none

/-- One `try` body of the `parse_date` loop: build a date from a group
triple, or `none` where the Python code hits `ValueError` and continues.
Mirrors the branch structure of the source, including the dead inner
`len(match[0]) == 4` branch. -/
def tryConstruct (g : List Char × List Char × List Char) :
    Option (ℕ × ℕ × ℕ) :=
  if g.1 ≠ [] ∧ g.1.all Char.isAlpha then
    strptimeDBY g.2.1 g.1 g.2.2
  else
    let n1 := decCharsToNat g.1
    let n2 := decCharsToNat g.2.1
    let n3 := decCharsToNat g.2.2
    if g.2.2.length = 4 then
      if g.1.length = 4 then
        if validYMD n1 n2 n3 then some (n1, n2, n3) else none
      else
        if validYMD n3 n1 n2 then some (n3, n1, n2) else none
    else
      let y := if n3 < 50 then n3 + 2000 else n3 + 1900
      if validYMD y n1 n2 then some (y, n1, n2) else none

/-- Zero-padded two-digit numeral (`%m`, `%d` in `strftime`). -/
def pad2 (n : ℕ) : List Char :=
  if n < 10 then '0' :: natToDecChars n else natToDecChars n

/-- `date_obj.strftime("%Y-%m-%d")`.  (glibc prints the year unpadded;
every year reachable here and used below has four digits.) -/
def formatYMD : ℕ × ℕ × ℕ → String
  | (y, m, d) => String.mk (natToDecChars y ++ '-' :: pad2 m ++ '-' :: pad2 d)

/-- `ReceiptOCR.parse_date`: first constructible date over the three
patterns in order, else today's date (threaded as `today`). -/
def parse_date (text : String) (today : String) : String :=
  let cs := text.data
  let all :=
    findAllTriple matchD12 (cs.length + 1) cs ++
    findAllTriple matchY4 (cs.length + 1) cs ++
    findAllTriple matchMonthName (cs.length + 1) cs
  match all.findSome? tryConstruct with
  | some d => formatYMD d
  | none => today

/-! ### `ExpenseTracker.view_expenses`

The two date filters are list comprehensions that call
`datetime.strptime(exp['date'], "%Y-%m-%d")` on every record inside the
same `try` block as the bound itself, so a malformed stored date surfaces
as the same `ValueError` as a malformed bound.  The guards `if category:`,
`if start_date:`, `if end_date:` are Python truthiness tests: an empty
string disables a filter exactly like an omitted argument. -/

/-- The `start_date` comprehension: keep records whose parsed date is at
least `sd`; a record date that fails to parse raises. -/
def filterStart (sd : ℕ × ℕ × ℕ) : List Expense → Except TrackerError (List Expense)
  | [] => .ok []
  | e :: tl =>
    match parseYMD e.date with
    | none => .error .invalidStartDate
    | some d =>
      match filterStart sd tl with
      | .error er => .error er
      | .ok rest => .ok (if dateLe sd d then e :: rest else rest)

/-- The `end_date` comprehension: keep records whose parsed date is at
most `ed`. -/
def filterEnd (ed : ℕ × ℕ × ℕ) : List Expense → Except TrackerError (List Expense)
  | [] => .ok []
  | e :: tl =>
    match parseYMD e.date with
    | none => .error .invalidEndDate
    | some d =>
      match filterEnd ed tl with
      | .error er => .error er
      | .ok rest => .ok (if dateLe d ed then e :: rest else rest)

/-- The `if category:` block of `view_expenses`. -/
def categoryStage (expenses : List Expense) (category : Option String) :
    Except TrackerError (List Expense) :=
  match category with
  | some c =>
    if c = "" then .ok expenses
    else if c ∈ EXPENSE_CATEGORIES then .ok (expenses.filter fun e => e.category = c)
    else .error .invalidCategory
  | none => .ok expenses

/-- The `if start_date:` block of `view_expenses`. -/
def startStage (l : List Expense) (startDate : Option String) :
    Except TrackerError (List Expense) :=
  match startDate with
  | some s =>
    if s = "" then .ok l
    else
      match parseYMD s with
      | none => .error .invalidStartDate
      | some sd => filterStart sd l
  | none => .ok l

/-- The `if end_date:` block of `view_expenses`. -/
def endStage (l : List Expense) (endDate : Option String) :
    Except TrackerError (List Expense) :=
  match endDate with
  | some s =>
    if s = "" then .ok l
    else
      match parseYMD s with
      | none => .error .invalidEndDate
      | some ed => filterEnd ed l
  | none => .ok l

/-- `ExpenseTracker.view_expenses`: the three filter blocks in sequence. -/
def view_expenses (expenses : List Expense)
    (category startDate endDate : Option String) :
    Except TrackerError (List Expense) :=
  match categoryStage expenses category with
  | .error er => .error er
  | .ok l1 =>
    match startStage l1 startDate with
    | .error er => .error er
    | .ok l2 => endStage l2 endDate

/-! ### Persistence (`_save_to_csv` / `_load_from_csv`, `_save_to_json` /
`_load_from_json`)

Files are modelled as structured values: a CSV file as its list of rows
(each a list of cell strings — the `csv` module round-trips arbitrary cell
strings, so quoting is below this model), a JSON file as the list of
five-key objects `json.dump` writes.  `None` models an absent file.
`_save_to_csv` returns without writing when the expense list is empty.
On load, any failure (missing or foreign header, short row, unparsable
amount) raises inside `_load_expenses`, which catches and resets the store
to `[]`.  The amount cell models `str(float)`: an exact decimal expansion
of the value, re-read exactly by `float()` (`decParse`). -/

/-- Largest `e` with `p ^ e ∣ n` (computed with `n` as fuel; total). -/
def maxPowAux : ℕ → ℕ → ℕ → ℕ
  | 0, _, _ => 0
  | fuel + 1, p, n =>
    if 2 ≤ p ∧ n ≠ 0 ∧ p ∣ n then maxPowAux fuel p (n / p) + 1 else 0

/-- Largest `e` with `p ^ e ∣ n`, for `2 ≤ p` and `n ≠ 0`. -/
def maxPow (p n : ℕ) : ℕ := maxPowAux n p n

/-- Left-pad with `'0'` to length `k`. -/
def padZeros (k : ℕ) (cs : List Char) : List Char :=
  List.replicate (k - cs.length) '0' ++ cs

/-- Decimal rendering of a nonnegative rational with a finite decimal
expansion, with the minimal number of fractional digits (and one `0` digit
for integral values): the exact-value model of Python `str(float)`. -/
def ratToDecString (q : ℚ) : String :=
  let k := max (maxPow 2 q.den) (maxPow 5 q.den)
  let n := q.num.toNat * (10 ^ k / q.den)
  String.mk (natToDecChars (n / 10 ^ k) ++ '.' :: padZeros k (natToDecChars (n % 10 ^ k)))

/-- The fixed CSV field order written by `_save_to_csv`. -/
def csvHeader : List String :=
  ["date", "amount", "category", "vendor", "description"]

/-- One `DictWriter` row for an expense record. -/
def encodeCsvRow (e : Expense) : List String :=
  [e.date, ratToDecString e.amount, e.category, e.vendor, e.description]

/-- `_save_to_csv`: a no-op on an empty list, otherwise a full rewrite of
the file with the header and one row per record. -/
def saveToCsv (l : List Expense) (file : Option (List (List String))) :
    Option (List (List String)) :=
  if l.isEmpty then file else some (csvHeader :: l.map encodeCsvRow)

/-- Read back one CSV row (`DictReader` row plus `float(row['amount'])`). -/
def decodeCsvRow : List String → Option Expense
  | [d, a, c, v, de] => (decParse a).map fun q => ⟨d, q, c, v, de⟩
  | _ => none

/-- `_load_from_csv`, composed with the `except` handler of
`_load_expenses`: a missing file or any read failure yields the empty
store. -/
def loadFromCsv : Option (List (List String)) → List Expense
  | none => []
  | some [] => []
  | some (h :: rows) =>
    if h = csvHeader then (rows.mapM decodeCsvRow).getD [] else []

/-- JSON scalar values appearing in the stored objects. -/
inductive JValue where
  | str : String → JValue
  | num : ℚ → JValue
deriving DecidableEq, Repr

/-- The JSON object `json.dump` writes for one record. -/
def encodeJsonObj (e : Expense) : List (String × JValue) :=
  [("date", .str e.date), ("amount", .num e.amount),
   ("category", .str e.category), ("vendor", .str e.vendor),
   ("description", .str e.description)]

/-- `_save_to_json`: always a full rewrite, also for the empty list. -/
def saveToJson (l : List Expense) (_file : Option (List (List (String × JValue)))) :
    Option (List (List (String × JValue))) :=
  some (l.map encodeJsonObj)

/-- Read back one JSON object as a record (shape written by the saver). -/
def decodeJsonObj : List (String × JValue) → Option Expense
  | [("date", .str d), ("amount", .num a), ("category", .str c),
     ("vendor", .str v), ("description", .str de)] => some ⟨d, a, c, v, de⟩
  | _ => none

/-- `_load_from_json` with the `except` handler of `_load_expenses`. -/
def loadFromJson : Option (List (List (String × JValue))) → List Expense
  | none => []
  | some objs => (objs.mapM decodeJsonObj).getD []

/-! ## Helper lemmas -/

/-- A successful `find?` splits the list at the first satisfying element. -/
theorem find?_eq_some_split {α : Type} {p : α → Bool} {l : List α} {a : α}
    (h : l.find? p = some a) :
    p a = true ∧ ∃ pre suf, l = pre ++ a :: suf ∧ ∀ x ∈ pre, p x = false := by
  induction l with
  | nil => simp [List.find?] at h
  | cons b tl ih =>
    rw [List.find?] at h
    by_cases hb : p b = true
    · rw [hb] at h
      simp only [Option.some.injEq] at h
      subst h
      exact ⟨hb, [], tl, rfl, by simp⟩
    · rw [Bool.not_eq_true] at hb
      rw [hb] at h
      obtain ⟨hpa, pre, suf, rfl, hpre⟩ := ih h
      refine ⟨hpa, b :: pre, suf, rfl, ?_⟩
      intro x hx
      rcases List.mem_cons.mp hx with rfl | hx
      · exact hb
      · exact hpre x hx

/-- `hasSub` decides the sublist (Python substring) relation. -/
theorem hasSub_iff (n h : List Char) : hasSub n h = true ↔ n <:+: h := by
  induction h with
  | nil =>
    simp only [hasSub, List.infix_nil, List.isEmpty_iff]
  | cons c tl ih =>
    simp only [hasSub, Bool.or_eq_true, List.isPrefixOf_iff_prefix, ih,
      List.infix_cons_iff]

/-! ## C4: `suggest_category` (corrected) -/

/-- C4 counterexample: the claim asserts
`suggest_category "Unknown Store" = "Other"`, but the keyword `"store"`
(a Shopping rule) occurs in the lowercased vendor string, so the code
returns `"Shopping"`. -/
theorem C4_counterexample :
    suggest_category "Unknown Store" = "Shopping" ∧
    ("Shopping" : String) ≠ "Other" := by
  exact ⟨rfl, by decide⟩

/-- C4 (amended): `suggest_category` lowercases the vendor, scans
`vendor_categories` in its insertion order and returns the category of the
first keyword occurring as a substring, with `"Other"` when none occurs;
`suggest_category "Shell Gas Station" = "Gas"` and
`suggest_category "Unknown Store" = "Shopping"`. -/
theorem C4_suggest_category_spec :
    (∀ vendor : String,
      (∃ pre kv suf, vendor_categories = pre ++ kv :: suf ∧
        suggest_category vendor = kv.2 ∧
        kv.1.data <:+: vendor.data.map Char.toLower ∧
        ∀ kv' ∈ pre, ¬ (kv'.1.data <:+: vendor.data.map Char.toLower)) ∨
      (suggest_category vendor = "Other" ∧
        ∀ kv ∈ vendor_categories, ¬ (kv.1.data <:+: vendor.data.map Char.toLower))) ∧
    suggest_category "Shell Gas Station" = "Gas" ∧
    suggest_category "Unknown Store" = "Shopping" := by
  refine ⟨fun vendor => ?_, rfl, rfl⟩
  unfold suggest_category
  cases h : vendor_categories.find? (fun kv => hasSub kv.1.data (vendor.data.map Char.toLower)) with
  | some kv =>
    obtain ⟨hpa, pre, suf, hsplit, hpre⟩ := find?_eq_some_split h
    refine .inl ⟨pre, kv, suf, hsplit, rfl, (hasSub_iff _ _).mp hpa, ?_⟩
    intro kv' hkv' hinf
    have := hpre kv' hkv'
    rw [(hasSub_iff _ _).symm.mp hinf] at this
    cases this
  | none =>
    refine .inr ⟨rfl, fun kv hkv hinf => ?_⟩
    have := List.find?_eq_none.mp h kv hkv
    exact this ((hasSub_iff _ _).mpr hinf)

/-! ## C9: the suggested category is always a valid category -/

/-- C9: every category produced by `suggest_category` (each table entry
and the `"Other"` fallback) is one of the 13 `EXPENSE_CATEGORIES`, so a
suggested category always passes the `add_expense` category check. -/
theorem C9_suggest_category_always_valid :
    (∀ vendor : String, suggest_category vendor ∈ EXPENSE_CATEGORIES) ∧
    (∀ (vendor : String) (l : List Expense) (a : ℚ) (v de : String)
      (od : Option String) (t : String),
      (add_expense l a (suggest_category vendor) v de od t).result ≠
        Except.error TrackerError.invalidCategory) := by
  have hmem : ∀ vendor : String, suggest_category vendor ∈ EXPENSE_CATEGORIES := by
    intro vendor
    unfold suggest_category
    cases h : vendor_categories.find? (fun kv => hasSub kv.1.data (vendor.data.map Char.toLower)) with
    | some kv =>
      have hkv : kv ∈ vendor_categories := List.mem_of_find?_eq_some h
      have hall : ∀ kv ∈ vendor_categories, kv.2 ∈ EXPENSE_CATEGORIES := by decide
      exact hall kv hkv
    | none => decide
  refine ⟨hmem, fun vendor l a v de od t => ?_⟩
  unfold add_expense
  split
  · simp
  · split
    · next hnot => exact absurd (hmem vendor) hnot
    · cases od with
      | none => simp
      | some d =>
        cases hp : parseYMD d <;> simp [hp]

/-! ## C1: `add_expense` on valid inputs -/

/-- C1: for a nonnegative amount, a category in the 13-element list and a
date string accepted by `%Y-%m-%d`, `add_expense` succeeds, the returned
record's five fields equal the inputs exactly, and the record is appended
at the end of the store's list. -/
theorem C1_add_expense_valid (l : List Expense) (amount : ℚ)
    (category vendor description d today : String)
    (h0 : 0 ≤ amount) (hc : category ∈ EXPENSE_CATEGORIES)
    (hd : (parseYMD d).isSome) :
    ∃ e : Expense,
      (add_expense l amount category vendor description (some d) today).result = Except.ok e ∧
      e.date = d ∧ e.amount = amount ∧ e.category = category ∧
      e.vendor = vendor ∧ e.description = description ∧
      (add_expense l amount category vendor description (some d) today).expenses = l ++ [e] := by
  obtain ⟨v, hv⟩ := Option.isSome_iff_exists.mp hd
  refine ⟨⟨d, amount, category, vendor, description⟩, ?_⟩
  unfold add_expense
  rw [if_neg (not_lt.mpr h0), if_neg (not_not_intro hc)]
  simp [hv]

/-- C1 witness at a concrete valid input. -/
theorem C1_witness :
    (0 : ℚ) ≤ mkRat 2550 100 ∧ "Food & Dining" ∈ EXPENSE_CATEGORIES ∧
    (parseYMD "2024-01-15").isSome = true ∧
    (∃ e : Expense,
      (add_expense [] (mkRat 2550 100) "Food & Dining" "Starbucks" "coffee"
        (some "2024-01-15") "2025-10-12").result = Except.ok e ∧
      e.date = "2024-01-15" ∧ e.amount = mkRat 2550 100 ∧
      e.category = "Food & Dining" ∧ e.vendor = "Starbucks" ∧
      e.description = "coffee" ∧
      (add_expense [] (mkRat 2550 100) "Food & Dining" "Starbucks" "coffee"
        (some "2024-01-15") "2025-10-12").expenses =
        [] ++ [e]) :=
  ⟨by decide, by decide, by decide,
    C1_add_expense_valid [] (mkRat 2550 100) "Food & Dining" "Starbucks"
      "coffee" "2024-01-15" "2025-10-12" (by decide) (by decide) (by decide)⟩

/-! ## C2: the failure conditions of `add_expense` -/

/-- C2: `add_expense` fails exactly when the amount is negative (then with
`InvalidAmount`), or the category is not in `EXPENSE_CATEGORIES` (then,
for a nonnegative amount, with `InvalidCategory`), or an explicitly given
date fails `%Y-%m-%d` parsing (then with `InvalidDate`); with the date
omitted it never raises the date error and succeeds on valid data, using
today's date. -/
theorem C2_add_expense_error_conditions (l : List Expense) (amount : ℚ)
    (category vendor description : String) (od : Option String)
    (today : String) :
    ((∃ er, (add_expense l amount category vendor description od today).result =
        Except.error er) ↔
      (amount < 0 ∨ category ∉ EXPENSE_CATEGORIES ∨
        ∃ d, od = some d ∧ parseYMD d = none)) ∧
    (amount < 0 →
      (add_expense l amount category vendor description od today).result =
        Except.error TrackerError.invalidAmount) ∧
    (¬ amount < 0 → category ∉ EXPENSE_CATEGORIES →
      (add_expense l amount category vendor description od today).result =
        Except.error TrackerError.invalidCategory) ∧
    (∀ d, ¬ amount < 0 → category ∈ EXPENSE_CATEGORIES → od = some d →
      parseYMD d = none →
      (add_expense l amount category vendor description od today).result =
        Except.error TrackerError.invalidDate) ∧
    (od = none →
      (add_expense l amount category vendor description od today).result ≠
        Except.error TrackerError.invalidDate) ∧
    (od = none → ¬ amount < 0 → category ∈ EXPENSE_CATEGORIES →
      (add_expense l amount category vendor description od today).result =
        Except.ok ⟨today, amount, category, vendor, description⟩) := by
  constructor
  · constructor
    · rintro ⟨er, her⟩
      by_cases ha : amount < 0
      · exact Or.inl ha
      by_cases hc : category ∈ EXPENSE_CATEGORIES
      · cases od with
        | none => simp [add_expense, ha, hc] at her
        | some d =>
          cases hp : parseYMD d with
          | none => exact Or.inr (Or.inr ⟨d, rfl, hp⟩)
          | some v => simp [add_expense, ha, hc, hp] at her
      · exact Or.inr (Or.inl hc)
    · rintro (ha | hc | ⟨d, rfl, hp⟩)
      · exact ⟨TrackerError.invalidAmount, by simp [add_expense, ha]⟩
      · by_cases ha : amount < 0
        · exact ⟨TrackerError.invalidAmount, by simp [add_expense, ha]⟩
        · exact ⟨TrackerError.invalidCategory, by simp [add_expense, ha, hc]⟩
      · by_cases ha : amount < 0
        · exact ⟨TrackerError.invalidAmount, by simp [add_expense, ha]⟩
        · by_cases hc : category ∈ EXPENSE_CATEGORIES
          · exact ⟨TrackerError.invalidDate, by simp [add_expense, ha, hc, hp]⟩
          · exact ⟨TrackerError.invalidCategory, by simp [add_expense, ha, hc]⟩
  refine ⟨fun ha => by simp [add_expense, ha], fun ha hc => by simp [add_expense, ha, hc],
    ?_, ?_, ?_⟩
  · intro d ha hc hod hp
    subst hod
    simp [add_expense, ha, hc, hp]
  · intro hod
    subst hod
    by_cases ha : amount < 0
    · simp [add_expense, ha]
    · by_cases hc : category ∈ EXPENSE_CATEGORIES
      · simp [add_expense, ha, hc]
      · simp [add_expense, ha, hc]
  · intro hod ha hc
    subst hod
    simp [add_expense, ha, hc]

/-- C2 witness at concrete inputs (a malformed explicit date). -/
theorem C2_witness :
    ((∃ er, (add_expense [] (mkRat 5 1) "Gas" "" "" (some "2024-13-01")
        "2025-10-12").result = Except.error er) ↔
      ((mkRat 5 1 : ℚ) < 0 ∨ ("Gas" : String) ∉ EXPENSE_CATEGORIES ∨
        ∃ d, (some "2024-13-01" : Option String) = some d ∧ parseYMD d = none)) ∧
    ((mkRat 5 1 : ℚ) < 0 →
      (add_expense [] (mkRat 5 1) "Gas" "" "" (some "2024-13-01")
        "2025-10-12").result = Except.error TrackerError.invalidAmount) ∧
    (¬ (mkRat 5 1 : ℚ) < 0 → ("Gas" : String) ∉ EXPENSE_CATEGORIES →
      (add_expense [] (mkRat 5 1) "Gas" "" "" (some "2024-13-01")
        "2025-10-12").result = Except.error TrackerError.invalidCategory) ∧
    (∀ d, ¬ (mkRat 5 1 : ℚ) < 0 → ("Gas" : String) ∈ EXPENSE_CATEGORIES →
      (some "2024-13-01" : Option String) = some d → parseYMD d = none →
      (add_expense [] (mkRat 5 1) "Gas" "" "" (some "2024-13-01")
        "2025-10-12").result = Except.error TrackerError.invalidDate) ∧
    ((some "2024-13-01" : Option String) = none →
      (add_expense [] (mkRat 5 1) "Gas" "" "" (some "2024-13-01")
        "2025-10-12").result ≠ Except.error TrackerError.invalidDate) ∧
    ((some "2024-13-01" : Option String) = none → ¬ (mkRat 5 1 : ℚ) < 0 →
      ("Gas" : String) ∈ EXPENSE_CATEGORIES →
      (add_expense [] (mkRat 5 1) "Gas" "" "" (some "2024-13-01")
        "2025-10-12").result =
        Except.ok ⟨"2025-10-12", mkRat 5 1, "Gas", "", ""⟩) :=
  C2_add_expense_error_conditions [] (mkRat 5 1) "Gas" "" ""
    (some "2024-13-01") "2025-10-12"

/-! ## C10: `add_expense` is atomic on failure -/

/-- C10: whenever `add_expense` raises, the expense list is unchanged and
no save is triggered (all validation precedes the append). -/
theorem C10_add_expense_atomic (l : List Expense) (amount : ℚ)
    (category vendor description : String) (od : Option String)
    (today : String) (er : TrackerError)
    (h : (add_expense l amount category vendor description od today).result =
      Except.error er) :
    (add_expense l amount category vendor description od today).expenses = l ∧
    (add_expense l amount category vendor description od today).saved = false := by
  by_cases ha : amount < 0
  · simp [add_expense, ha]
  · by_cases hc : category ∈ EXPENSE_CATEGORIES
    · cases od with
      | none => simp [add_expense, ha, hc] at h
      | some d =>
        cases hp : parseYMD d with
        | none => simp [add_expense, ha, hc, hp]
        | some v => simp [add_expense, ha, hc, hp] at h
    · simp [add_expense, ha, hc]

/-- C10 witness at a concrete failing input (negative amount). -/
theorem C10_witness :
    (add_expense [] (mkRat (-1) 1) "Gas" "" "" none "2025-10-12").expenses = [] ∧
    (add_expense [] (mkRat (-1) 1) "Gas" "" "" none "2025-10-12").saved = false :=
  C10_add_expense_atomic [] (mkRat (-1) 1) "Gas" "" "" none "2025-10-12"
    TrackerError.invalidAmount (by decide)

/-! ## C5: `parse_date` and the dead year-first branch

The claim (and the source comments `# YYYY` / `# YYYY-MM-DD`) read the
numeric branch as Y-M-D whenever the first group has four digits, but the
code nests that test under `len(match[2]) == 4`, and no pattern can
produce four digits in both the first and the third group.  A year-first
date such as `2024/01/15` is therefore funnelled into the two-digit-year
branch as month 2024, fails, and `parse_date` falls back to today. -/

/-- C5: at the failing input `"2024/01/15"` the code returns today's date
instead of `"2024-01-15"`, while the month-first form `"01/15/2024"` shows
the intended construction working. -/
theorem C5_parse_date_dead_branch :
    (∀ today : String, parse_date "2024/01/15" today = today) ∧
    (∀ today : String, parse_date "01/15/2024" today = "2024-01-15") := by
  exact ⟨fun today => rfl, fun today => rfl⟩

/-! ## C6: `parse_vendor` -/

/-- A guarded `findSome?` is `find?` followed by the payload map. -/
theorem findSome?_if_eq_find?_map {α β : Type} (p : α → Bool) (g : α → β)
    (l : List α) :
    l.findSome? (fun x => if p x then some (g x) else none) =
      (l.find? p).map g := by
  induction l with
  | nil => rfl
  | cons a t ih =>
    by_cases h : p a <;> simp [List.findSome?_cons, List.find?_cons, h, ih]

/-- C6: `parse_vendor` looks only at the first five lines; it returns the
title-cased strip of the first line whose strip has length above 2, does
not start with a digit and contains no phone-shaped token, and returns
`"Unknown Vendor"` when no line qualifies; on the receipt
`"STARBUCKS\n123 Main St\nSeattle, WA"` it returns `"Starbucks"`. -/
theorem C6_parse_vendor_spec :
    (∀ t₁ t₂ : String,
      (splitLines t₁.data).take 5 = (splitLines t₂.data).take 5 →
      parse_vendor t₁ = parse_vendor t₂) ∧
    (∀ t : String,
      (∃ pre l suf, (splitLines t.data).take 5 = pre ++ l :: suf ∧
        vendorLineOK (pyStrip l) = true ∧
        (∀ l' ∈ pre, vendorLineOK (pyStrip l') = false) ∧
        parse_vendor t = String.mk (pyTitle (pyStrip l))) ∨
      ((∀ l ∈ (splitLines t.data).take 5, vendorLineOK (pyStrip l) = false) ∧
        parse_vendor t = "Unknown Vendor")) ∧
    parse_vendor "STARBUCKS\n123 Main St\nSeattle, WA" = "Starbucks" := by
  refine ⟨?_, ?_, by decide⟩
  · intro t₁ t₂ h
    unfold parse_vendor
    rw [h]
  · intro t
    unfold parse_vendor
    rw [findSome?_if_eq_find?_map (fun l => vendorLineOK (pyStrip l)) pyStrip]
    cases h : ((splitLines t.data).take 5).find? (fun l => vendorLineOK (pyStrip l)) with
    | some l =>
      obtain ⟨hp, pre, suf, hsplit, hpre⟩ := find?_eq_some_split h
      exact .inl ⟨pre, l, suf, hsplit, hp, hpre, rfl⟩
    | none =>
      exact .inr ⟨fun l hl => by simpa using List.find?_eq_none.mp h l hl, rfl⟩

/-- C6 witness: two texts agreeing on their first five lines (the sixth
differs) get the same vendor, instantiating the locality hypothesis. -/
theorem C6_witness :
    ((splitLines ("STARBUCKS\n123\n\nx\ny\nAAA" : String).data).take 5 =
      (splitLines ("STARBUCKS\n123\n\nx\ny\nBBB" : String).data).take 5) ∧
    parse_vendor "STARBUCKS\n123\n\nx\ny\nAAA" =
      parse_vendor "STARBUCKS\n123\n\nx\ny\nBBB" :=
  ⟨by decide,
    C6_parse_vendor_spec.1 "STARBUCKS\n123\n\nx\ny\nAAA"
      "STARBUCKS\n123\n\nx\ny\nBBB" (by decide)⟩

/-! ## C7: `view_expenses` (corrected)

Spec-side filter predicates, written after the claim's words ("records
satisfying all given filters conjunctively, with date bounds inclusive"),
for comparison with the code's sequential filtering. -/

/-- Claim-side category filter. -/
def catKeep (oc : Option String) (e : Expense) : Bool :=
  match oc with
  | none => true
  | some c => if c = "" then true else e.category = c

/-- Code-side start-bound test for a parsed bound. -/
def startKeep (sd : ℕ × ℕ × ℕ) (e : Expense) : Bool :=
  match parseYMD e.date with
  | some d => dateLe sd d
  | none => false

/-- Code-side end-bound test for a parsed bound. -/
def endKeep (ed : ℕ × ℕ × ℕ) (e : Expense) : Bool :=
  match parseYMD e.date with
  | some d => dateLe d ed
  | none => false

/-- Claim-side start-date filter (inclusive lower bound). -/
def optStartKeep (os : Option String) (e : Expense) : Bool :=
  match os with
  | none => true
  | some s =>
    if s = "" then true
    else
      match parseYMD s, parseYMD e.date with
      | some sd, some d => dateLe sd d
      | _, _ => false

/-- Claim-side end-date filter (inclusive upper bound). -/
def optEndKeep (oe : Option String) (e : Expense) : Bool :=
  match oe with
  | none => true
  | some s =>
    if s = "" then true
    else
      match parseYMD s, parseYMD e.date with
      | some ed, some d => dateLe d ed
      | _, _ => false

theorem filterStart_ok (sd : ℕ × ℕ × ℕ) (l : List Expense)
    (h : ∀ e ∈ l, (parseYMD e.date).isSome) :
    filterStart sd l = .ok (l.filter (startKeep sd)) := by
  induction l with
  | nil => rfl
  | cons e tl ih =>
    obtain ⟨d, hd⟩ := Option.isSome_iff_exists.mp (h e (List.mem_cons_self e tl))
    have ih' := ih fun x hx => h x (List.mem_cons_of_mem _ hx)
    rw [List.filter_cons]
    simp only [filterStart, hd, ih', startKeep]

theorem filterEnd_ok (ed : ℕ × ℕ × ℕ) (l : List Expense)
    (h : ∀ e ∈ l, (parseYMD e.date).isSome) :
    filterEnd ed l = .ok (l.filter (endKeep ed)) := by
  induction l with
  | nil => rfl
  | cons e tl ih =>
    obtain ⟨d, hd⟩ := Option.isSome_iff_exists.mp (h e (List.mem_cons_self e tl))
    have ih' := ih fun x hx => h x (List.mem_cons_of_mem _ hx)
    rw [List.filter_cons]
    simp only [filterEnd, hd, ih', endKeep]

theorem categoryStage_ok (l : List Expense) (oc : Option String)
    (hc : ∀ c, oc = some c → c ≠ "" → c ∈ EXPENSE_CATEGORIES) :
    categoryStage l oc = .ok (l.filter (catKeep oc)) := by
  cases oc with
  | none =>
    rw [show catKeep none = fun _ => true from rfl, List.filter_true]
    rfl
  | some c =>
    by_cases h0 : c = ""
    · subst h0
      rw [show catKeep (some "") = fun _ => true from rfl, List.filter_true]
      rfl
    · have hmem := hc c rfl h0
      simp only [categoryStage, if_neg h0, if_pos hmem]
      congr 1
      apply List.filter_congr
      intro e _
      simp [catKeep, h0]

theorem startStage_ok (l : List Expense) (os : Option String)
    (hd : ∀ e ∈ l, (parseYMD e.date).isSome)
    (hs : ∀ s, os = some s → s ≠ "" → (parseYMD s).isSome) :
    startStage l os = .ok (l.filter (optStartKeep os)) := by
  cases os with
  | none =>
    rw [show optStartKeep none = fun _ => true from rfl, List.filter_true]
    rfl
  | some s =>
    by_cases h0 : s = ""
    · subst h0
      rw [show optStartKeep (some "") = fun _ => true from rfl, List.filter_true]
      rfl
    · obtain ⟨sd, hsd⟩ := Option.isSome_iff_exists.mp (hs s rfl h0)
      simp only [startStage, if_neg h0, hsd, filterStart_ok sd l hd]
      congr 1
      apply List.filter_congr
      intro e _
      simp only [startKeep, optStartKeep, if_neg h0, hsd]
      cases parseYMD e.date <;> rfl

theorem endStage_ok (l : List Expense) (oe : Option String)
    (hd : ∀ e ∈ l, (parseYMD e.date).isSome)
    (he : ∀ s, oe = some s → s ≠ "" → (parseYMD s).isSome) :
    endStage l oe = .ok (l.filter (optEndKeep oe)) := by
  cases oe with
  | none =>
    rw [show optEndKeep none = fun _ => true from rfl, List.filter_true]
    rfl
  | some s =>
    by_cases h0 : s = ""
    · subst h0
      rw [show optEndKeep (some "") = fun _ => true from rfl, List.filter_true]
      rfl
    · obtain ⟨ed, hed⟩ := Option.isSome_iff_exists.mp (he s rfl h0)
      simp only [endStage, if_neg h0, hed, filterEnd_ok ed l hd]
      congr 1
      apply List.filter_congr
      intro e _
      simp only [endKeep, optEndKeep, if_neg h0, hed]
      cases parseYMD e.date <;> rfl

/-- C7 counterexample: the claim asserts that a supplied category outside
`EXPENSE_CATEGORIES` fails with `InvalidCategory`, but the guard
`if category:` treats the supplied empty string — which is not a member of
the category list — as an absent filter, and the call succeeds. -/
theorem C7_counterexample :
    ("" : String) ∉ EXPENSE_CATEGORIES ∧
    view_expenses [⟨"2024-01-15", mkRat 5 1, "Gas", "", ""⟩] (some "") none none =
      Except.ok [⟨"2024-01-15", mkRat 5 1, "Gas", "", ""⟩] :=
  ⟨by decide, by decide⟩

/-- C7 (amended): on a store whose dates parse, with each supplied filter
either empty (ignored, like absent), or — for the category — a valid
category, or — for a bound — a parseable date, `view_expenses` returns
exactly the records satisfying all given filters conjunctively with
inclusive bounds, in insertion order (`List.filter` preserves order); a
supplied non-empty category outside the list fails with `InvalidCategory`,
and a non-empty unparseable bound fails with the corresponding
`InvalidDate` error. -/
theorem C7_view_expenses_amended :
    (∀ (l : List Expense) (oc os oe : Option String),
      (∀ e ∈ l, (parseYMD e.date).isSome) →
      (∀ c, oc = some c → c ≠ "" → c ∈ EXPENSE_CATEGORIES) →
      (∀ s, os = some s → s ≠ "" → (parseYMD s).isSome) →
      (∀ s, oe = some s → s ≠ "" → (parseYMD s).isSome) →
      view_expenses l oc os oe =
        .ok (l.filter fun e => catKeep oc e && optStartKeep os e && optEndKeep oe e)) ∧
    (∀ (l : List Expense) (c : String) (os oe : Option String),
      c ≠ "" → c ∉ EXPENSE_CATEGORIES →
      view_expenses l (some c) os oe = .error .invalidCategory) ∧
    (∀ (l : List Expense) (oc : Option String) (s : String) (oe : Option String),
      (∀ c, oc = some c → c ≠ "" → c ∈ EXPENSE_CATEGORIES) →
      s ≠ "" → parseYMD s = none →
      view_expenses l oc (some s) oe = .error .invalidStartDate) ∧
    (∀ (l : List Expense) (oc os : Option String) (s : String),
      (∀ e ∈ l, (parseYMD e.date).isSome) →
      (∀ c, oc = some c → c ≠ "" → c ∈ EXPENSE_CATEGORIES) →
      (∀ s', os = some s' → s' ≠ "" → (parseYMD s').isSome) →
      s ≠ "" → parseYMD s = none →
      view_expenses l oc os (some s) = .error .invalidEndDate) := by
  refine ⟨?_, ?_, ?_, ?_⟩
  · intro l oc os oe hd hc hs he
    have h1 := categoryStage_ok l oc hc
    have hd1 : ∀ e ∈ l.filter (catKeep oc), (parseYMD e.date).isSome :=
      fun e he' => hd e (List.mem_of_mem_filter he')
    have h2 := startStage_ok (l.filter (catKeep oc)) os hd1 hs
    have hd2 : ∀ e ∈ (l.filter (catKeep oc)).filter (optStartKeep os),
        (parseYMD e.date).isSome :=
      fun e he' => hd1 e (List.mem_of_mem_filter he')
    have h3 := endStage_ok ((l.filter (catKeep oc)).filter (optStartKeep os)) oe hd2 he
    simp only [view_expenses, h1, h2, h3]
    congr 1
    rw [List.filter_filter, List.filter_filter]
    apply List.filter_congr
    intro e _
    cases catKeep oc e <;> cases optStartKeep os e <;> cases optEndKeep oe e <;> rfl
  · intro l c os oe h0 hc
    simp [view_expenses, categoryStage, h0, hc]
  · intro l oc s oe hc h0 hp
    have h1 := categoryStage_ok l oc hc
    simp [view_expenses, h1, startStage, h0, hp]
  · intro l oc os s hd hc hs h0 hp
    have h1 := categoryStage_ok l oc hc
    have hd1 : ∀ e ∈ l.filter (catKeep oc), (parseYMD e.date).isSome :=
      fun e he' => hd e (List.mem_of_mem_filter he')
    have h2 := startStage_ok (l.filter (catKeep oc)) os hd1 hs
    simp [view_expenses, h1, h2, endStage, h0, hp]

/-- A concrete store for the C7 witness. -/
def sampleExpenses : List Expense :=
  [⟨"2024-01-15", mkRat 5 1, "Gas", "Shell", ""⟩,
   ⟨"2024-02-10", mkRat 7 1, "Gas", "BP", ""⟩,
   ⟨"2024-01-20", mkRat 9 1, "Travel", "", ""⟩]

/-- C7 witness: a concrete category-plus-range query. -/
theorem C7_witness :
    (∀ e ∈ sampleExpenses, (parseYMD e.date).isSome) ∧
    (∀ c, (some "Gas" : Option String) = some c → c ≠ "" → c ∈ EXPENSE_CATEGORIES) ∧
    (∀ s, (some "2024-01-01" : Option String) = some s → s ≠ "" → (parseYMD s).isSome) ∧
    (∀ s, (some "2024-01-31" : Option String) = some s → s ≠ "" → (parseYMD s).isSome) ∧
    view_expenses sampleExpenses (some "Gas") (some "2024-01-01") (some "2024-01-31") =
      .ok (sampleExpenses.filter fun e =>
        catKeep (some "Gas") e && optStartKeep (some "2024-01-01") e &&
          optEndKeep (some "2024-01-31") e) :=
  ⟨by decide, by decide, by decide, by decide,
    C7_view_expenses_amended.1 sampleExpenses (some "Gas") (some "2024-01-01")
      (some "2024-01-31") (by decide) (by decide) (by decide) (by decide)⟩

/-! ## C3: `parse_amount` -/

/-- The running fold of Python `max` stays in the list. -/
theorem listMaxQ_mem : ∀ (tl : List ℚ) (x : ℚ), listMaxQ x tl ∈ x :: tl := by
  intro tl
  induction tl with
  | nil => intro x; simp [listMaxQ]
  | cons y t ih =>
    intro x
    simp only [listMaxQ]
    rcases List.mem_cons.mp (ih (if x ≤ y then y else x)) with h1 | h1
    · rw [h1]
      by_cases hxy : x ≤ y
      · simp [hxy]
      · simp [hxy]
    · exact List.mem_cons_of_mem _ (List.mem_cons_of_mem _ h1)

/-- The running fold of Python `max` dominates the list. -/
theorem le_listMaxQ : ∀ (tl : List ℚ) (x y : ℚ), y ∈ x :: tl → y ≤ listMaxQ x tl := by
  intro tl
  induction tl with
  | nil =>
    intro x y hy
    rcases List.mem_cons.mp hy with rfl | h
    · exact le_refl y
    · cases h
  | cons z t ih =>
    intro x y hy
    simp only [listMaxQ]
    have hx : x ≤ (if x ≤ z then z else x) := by
      by_cases h : x ≤ z
      · rw [if_pos h]; exact h
      · rw [if_neg h]
    have hz : z ≤ (if x ≤ z then z else x) := by
      by_cases h : x ≤ z
      · rw [if_pos h]
      · rw [if_neg h]; exact le_of_not_le h
    rcases List.mem_cons.mp hy with rfl | hy'
    · exact le_trans hx (ih _ _ (List.mem_cons_self _ _))
    · rcases List.mem_cons.mp hy' with rfl | hy''
      · exact le_trans hz (ih _ _ (List.mem_cons_self _ _))
      · exact ih _ _ (List.mem_cons_of_mem _ hy'')

/-- C3: `parse_amount` is absent exactly when no capture of the five
patterns over the lowercased text parses into `[0.01, 10000]`; otherwise
it returns a kept value that dominates all kept values (the maximum); and
`parse_amount "Total: $8.37" = 8.37`,
`parse_amount "no numbers here"` is absent. -/
theorem C3_parse_amount_spec :
    (∀ t : String, parse_amount t = none ↔ keptAmounts t = []) ∧
    (∀ (t : String) (v : ℚ), parse_amount t = some v →
      v ∈ keptAmounts t ∧ ∀ x ∈ keptAmounts t, x ≤ v) ∧
    parse_amount "Total: $8.37" = some (mkRat 837 100) ∧
    parse_amount "no numbers here" = none := by
  refine ⟨?_, ?_, by decide, by decide⟩
  · intro t
    unfold parse_amount
    cases h : keptAmounts t <;> simp
  · intro t v hv
    unfold parse_amount at hv
    cases h : keptAmounts t with
    | nil => rw [h] at hv; cases hv
    | cons x tl =>
      rw [h] at hv
      simp only [Option.some.injEq] at hv
      subst hv
      exact ⟨h ▸ listMaxQ_mem tl x, fun y hy => le_listMaxQ tl x y (h ▸ hy)⟩

/-- C3 witness: the non-`none` branch at the receipt example. -/
theorem C3_witness :
    parse_amount "Total: $8.37" = some (mkRat 837 100) ∧
    mkRat 837 100 ∈ keptAmounts "Total: $8.37" ∧
    ∀ x ∈ keptAmounts "Total: $8.37", x ≤ mkRat 837 100 :=
  ⟨by decide,
    (C3_parse_amount_spec.2.1 "Total: $8.37" (mkRat 837 100) (by decide)).1,
    (C3_parse_amount_spec.2.1 "Total: $8.37" (mkRat 837 100) (by decide)).2⟩

/-! ## C8: save-then-load round trip

First the decimal printer/parser round trip, then the `maxPow` shift
bound, then the file-level theorem. -/

theorem decChars_append (xs : List Char) (c : Char) :
    decCharsToNat (xs ++ [c]) = decCharsToNat xs * 10 + (c.toNat - 48) := by
  unfold decCharsToNat
  rw [List.foldl_append]
  rfl

theorem digitChar_val {d : ℕ} (h : d < 10) : (Nat.digitChar d).toNat - 48 = d := by
  interval_cases d <;> rfl

theorem digitChar_isDigit {d : ℕ} (h : d < 10) : (Nat.digitChar d).isDigit = true := by
  interval_cases d <;> rfl

theorem natToDecCharsAux_correct :
    ∀ fuel n, n ≤ fuel → decCharsToNat (natToDecCharsAux fuel n) = n := by
  intro fuel
  induction fuel with
  | zero =>
    intro n h
    interval_cases n
    rfl
  | succ f ih =>
    intro n h
    by_cases h0 : n = 0
    · subst h0; rfl
    · have hdiv : n / 10 < n := Nat.div_lt_self (Nat.pos_of_ne_zero h0) (by norm_num)
      simp only [natToDecCharsAux, if_neg h0]
      rw [decChars_append, ih (n / 10) (by omega),
        digitChar_val (Nat.mod_lt n (by norm_num))]
      omega

theorem natToDecCharsAux_digits :
    ∀ fuel n, (natToDecCharsAux fuel n).all Char.isDigit = true := by
  intro fuel
  induction fuel with
  | zero => intro n; rfl
  | succ f ih =>
    intro n
    by_cases h0 : n = 0
    · subst h0; rfl
    · simp only [natToDecCharsAux, if_neg h0, List.all_append, ih (n / 10),
        Bool.true_and, List.all_cons, List.all_nil, Bool.and_true]
      exact digitChar_isDigit (Nat.mod_lt n (by norm_num))

theorem natToDecCharsAux_len :
    ∀ fuel n k, n ≤ fuel → n < 10 ^ k → (natToDecCharsAux fuel n).length ≤ k := by
  intro fuel
  induction fuel with
  | zero => intro n k _ _; exact Nat.zero_le k
  | succ f ih =>
    intro n k h hk
    by_cases h0 : n = 0
    · subst h0; exact Nat.zero_le k
    · have hk1 : 1 ≤ k := by
        by_contra hc
        have : k = 0 := by omega
        subst this
        simp at hk
        omega
      have hdiv : n / 10 < n := Nat.div_lt_self (Nat.pos_of_ne_zero h0) (by norm_num)
      have hq : n / 10 < 10 ^ (k - 1) := by
        rw [Nat.div_lt_iff_lt_mul (by norm_num : 0 < 10)]
        calc n < 10 ^ k := hk
          _ = 10 ^ (k - 1) * 10 := by
            rw [← pow_succ]
            congr 1
            omega
      simp only [natToDecCharsAux, if_neg h0, List.length_append, List.length_cons,
        List.length_nil]
      have := ih (n / 10) (k - 1) (by omega) hq
      omega

theorem natToDecChars_correct (n : ℕ) : decCharsToNat (natToDecChars n) = n := by
  by_cases h0 : n = 0
  · subst h0; rfl
  · unfold natToDecChars
    rw [if_neg h0]
    exact natToDecCharsAux_correct n n (le_refl n)

theorem natToDecChars_digits (n : ℕ) : (natToDecChars n).all Char.isDigit = true := by
  by_cases h0 : n = 0
  · subst h0; rfl
  · unfold natToDecChars
    rw [if_neg h0]
    exact natToDecCharsAux_digits n n

theorem natToDecChars_ne_nil (n : ℕ) : natToDecChars n ≠ [] := by
  by_cases h0 : n = 0
  · subst h0; simp [natToDecChars]
  · unfold natToDecChars
    rw [if_neg h0]
    cases hn : n with
    | zero => exact absurd hn h0
    | succ m =>
      simp only [natToDecCharsAux, hn ▸ h0, if_neg h0]
      simp

theorem natToDecChars_len (n k : ℕ) (h : n < 10 ^ k) (hk : 1 ≤ k) :
    (natToDecChars n).length ≤ k := by
  by_cases h0 : n = 0
  · subst h0; simpa [natToDecChars] using hk
  · unfold natToDecChars
    rw [if_neg h0]
    exact natToDecCharsAux_len n n k (le_refl n) h

/-- `takeWhile`/`dropWhile` split around the first failing character. -/
theorem takeWhile_dropWhile_append {p : Char → Bool} {xs : List Char}
    (h : xs.all p = true) {c : Char} (hc : p c = false) (rest : List Char) :
    (xs ++ c :: rest).takeWhile p = xs ∧ (xs ++ c :: rest).dropWhile p = c :: rest := by
  induction xs with
  | nil => simp [List.takeWhile_cons, List.dropWhile_cons, hc]
  | cons a t ih =>
    simp only [List.all_cons, Bool.and_eq_true] at h
    have := ih h.2
    simp [List.takeWhile_cons, List.dropWhile_cons, h.1, this.1, this.2]

theorem foldl_zeros (m : ℕ) :
    List.foldl (fun a c => a * 10 + (c.toNat - 48)) 0 (List.replicate m '0') = 0 := by
  induction m with
  | zero => rfl
  | succ k ih => simpa [List.replicate_succ] using ih

theorem decChars_padZeros (k : ℕ) (cs : List Char) :
    decCharsToNat (padZeros k cs) = decCharsToNat cs := by
  unfold padZeros decCharsToNat
  rw [List.foldl_append, foldl_zeros]

theorem padZeros_all_digits (k : ℕ) {cs : List Char}
    (h : cs.all Char.isDigit = true) : (padZeros k cs).all Char.isDigit = true := by
  unfold padZeros
  rw [List.all_append, h]
  simp [List.all_eq_true]

theorem padZeros_length {k : ℕ} {cs : List Char} (h : cs.length ≤ k) :
    (padZeros k cs).length = k := by
  unfold padZeros
  rw [List.length_append, List.length_replicate]
  omega

theorem maxPowAux_prime_pow (p : ℕ) (hp : 2 ≤ p) :
    ∀ (x c : ℕ), ¬ p ∣ c → c ≠ 0 → ∀ fuel, p ^ x * c ≤ fuel →
      maxPowAux fuel p (p ^ x * c) = x := by
  intro x
  induction x with
  | zero =>
    intro c hc hc0 fuel hfuel
    cases fuel with
    | zero => rfl
    | succ f =>
      rw [pow_zero, one_mul] at hfuel ⊢
      simp [maxPowAux, hc]
  | succ x ih =>
    intro c hc hc0 fuel hfuel
    have hppos : 0 < p := by omega
    have hA : 1 ≤ p ^ x * c :=
      Nat.one_le_iff_ne_zero.mpr (mul_ne_zero (pow_ne_zero _ (by omega)) hc0)
    have hsplit : p ^ (x + 1) * c = p * (p ^ x * c) := by ring
    have hn0 : p ^ (x + 1) * c ≠ 0 := by
      rw [hsplit]
      exact mul_ne_zero (by omega) (by omega)
    cases fuel with
    | zero => exact absurd (Nat.le_zero.mp hfuel) hn0
    | succ f =>
      have hdvd : p ∣ p ^ (x + 1) * c := by
        rw [hsplit]
        exact Dvd.intro _ rfl
      have hcond : 2 ≤ p ∧ p ^ (x + 1) * c ≠ 0 ∧ p ∣ p ^ (x + 1) * c :=
        ⟨hp, hn0, hdvd⟩
      have hdiv : p ^ (x + 1) * c / p = p ^ x * c := by
        rw [hsplit, Nat.mul_div_cancel_left _ hppos]
      have h2A : 2 * (p ^ x * c) ≤ p ^ (x + 1) * c := by
        rw [hsplit]
        exact Nat.mul_le_mul_right _ hp
      have hfx : p ^ x * c ≤ f := by omega
      calc maxPowAux (f + 1) p (p ^ (x + 1) * c)
          = maxPowAux f p (p ^ (x + 1) * c / p) + 1 := by
            simp only [maxPowAux, if_pos hcond]
        _ = maxPowAux f p (p ^ x * c) + 1 := by rw [hdiv]
        _ = x + 1 := by rw [ih c hc hc0 f hfx]

theorem maxPow_prime_pow (p : ℕ) (hp : 2 ≤ p) (x c : ℕ)
    (hc : ¬ p ∣ c) (hc0 : c ≠ 0) : maxPow p (p ^ x * c) = x :=
  maxPowAux_prime_pow p hp x c hc hc0 (p ^ x * c) (le_refl _)

/-- A divisor of some power of ten divides the power of ten selected by
the `maxPow` shift. -/
theorem dvd_ten_pow_shift {d : ℕ} (h : ∃ m, d ∣ 10 ^ m) :
    d ∣ 10 ^ (max (maxPow 2 d) (maxPow 5 d)) := by
  obtain ⟨m, hm⟩ := h
  have h10 : (10 : ℕ) ^ m = 2 ^ m * 5 ^ m := by
    rw [← Nat.mul_pow]
  rw [h10] at hm
  obtain ⟨d2, d5, hd2, hd5, hk⟩ := exists_dvd_and_dvd_of_dvd_mul hm
  obtain ⟨x, _, rfl⟩ := (Nat.dvd_prime_pow Nat.prime_two).mp hd2
  obtain ⟨y, _, rfl⟩ := (Nat.dvd_prime_pow (by norm_num : Nat.Prime 5)).mp hd5
  subst hk
  have h25 : ¬ (2 : ℕ) ∣ 5 ^ y := by
    intro hdvd
    have := Nat.Prime.dvd_of_dvd_pow Nat.prime_two hdvd
    norm_num at this
  have h52 : ¬ (5 : ℕ) ∣ 2 ^ x := by
    intro hdvd
    have := Nat.Prime.dvd_of_dvd_pow (by norm_num : Nat.Prime 5) hdvd
    norm_num at this
  have e2 : maxPow 2 (2 ^ x * 5 ^ y) = x :=
    maxPow_prime_pow 2 (le_refl 2) x (5 ^ y) h25 (pow_ne_zero _ (by norm_num))
  have e5 : maxPow 5 (2 ^ x * 5 ^ y) = y := by
    rw [mul_comm]
    exact maxPow_prime_pow 5 (by norm_num) y (2 ^ x) h52 (pow_ne_zero _ (by norm_num))
  rw [e2, e5]
  have hsplit : (10 : ℕ) ^ max x y = 2 ^ max x y * 5 ^ max x y := by
    rw [← Nat.mul_pow]
  rw [hsplit]
  exact mul_dvd_mul (pow_dvd_pow 2 (le_max_left x y)) (pow_dvd_pow 5 (le_max_right x y))

/-- `decParseChars` on a numeral of the shape `ip.fs`. -/
theorem decParseChars_append_frac (ip fs : List Char)
    (hipd : ip.all Char.isDigit = true) (hipne : ip ≠ [])
    (hfsd : fs.all Char.isDigit = true) :
    decParseChars (ip ++ '.' :: fs) =
      some (mkRat (decCharsToNat ip * 10 ^ fs.length + decCharsToNat fs)
        (10 ^ fs.length)) := by
  obtain ⟨htake, hdrop⟩ :=
    takeWhile_dropWhile_append hipd (show Char.isDigit '.' = false from rfl) fs
  unfold decParseChars
  rw [htake, hdrop, if_neg (by simpa [List.isEmpty_iff] using hipne)]
  simp [hfsd]

/-- The decimal printer/parser round trip on nonnegative rationals with a
finite decimal expansion: the exact-value counterpart of
`float(str(x)) == x`. -/
theorem decParse_ratToDecString (q : ℚ) (h0 : 0 ≤ q)
    (hd : ∃ m, (q.den : ℕ) ∣ 10 ^ m) :
    decParse (ratToDecString q) = some q := by
  have hden0 : q.den ≠ 0 := q.den_nz
  have hdvd : q.den ∣ 10 ^ (max (maxPow 2 q.den) (maxPow 5 q.den)) :=
    dvd_ten_pow_shift hd
  set k := max (maxPow 2 q.den) (maxPow 5 q.den) with hkdef
  set n := q.num.toNat * (10 ^ k / q.den) with hndef
  have hkpos : (0 : ℕ) < 10 ^ k := Nat.pos_pow_of_pos k (by norm_num)
  have hfrac_lt : n % 10 ^ k < 10 ^ k := Nat.mod_lt _ hkpos
  have hkey : (n : ℚ) = q * 10 ^ k := by
    have h10 : q.den * (10 ^ k / q.den) = 10 ^ k := Nat.mul_div_cancel' hdvd
    have hnum : (q.num.toNat : ℤ) = q.num :=
      Int.toNat_of_nonneg (Rat.num_nonneg.mpr h0)
    have hqd : (q.num : ℚ) = q * q.den := by
      have hdq : ((q.den : ℚ)) ≠ 0 := by exact_mod_cast hden0
      exact ((eq_div_iff hdq).mp (Rat.num_div_den q).symm).symm
    have hnumq : (q.num.toNat : ℚ) = (q.num : ℚ) := by
      exact_mod_cast congrArg (fun z : ℤ => (z : ℚ)) hnum
    calc (n : ℚ) = (q.num.toNat : ℚ) * ((10 ^ k / q.den : ℕ) : ℚ) := by
          rw [hndef]
          exact_mod_cast Nat.cast_mul q.num.toNat (10 ^ k / q.den)
      _ = q * q.den * ((10 ^ k / q.den : ℕ) : ℚ) := by rw [hnumq, hqd]
      _ = q * ((q.den * (10 ^ k / q.den) : ℕ) : ℚ) := by push_cast; ring
      _ = q * 10 ^ k := by rw [h10]; push_cast; ring
  have hrt : ratToDecString q =
      String.mk (natToDecChars (n / 10 ^ k) ++ '.' ::
        padZeros k (natToDecChars (n % 10 ^ k))) := rfl
  have hstep : decParse (ratToDecString q) =
      some (mkRat (decCharsToNat (natToDecChars (n / 10 ^ k)) *
          10 ^ (padZeros k (natToDecChars (n % 10 ^ k))).length +
          decCharsToNat (padZeros k (natToDecChars (n % 10 ^ k))))
        (10 ^ (padZeros k (natToDecChars (n % 10 ^ k))).length)) := by
    rw [hrt]
    exact decParseChars_append_frac _ _ (natToDecChars_digits _)
      (natToDecChars_ne_nil _) (padZeros_all_digits k (natToDecChars_digits _))
  rw [hstep, decChars_padZeros, natToDecChars_correct, natToDecChars_correct]
  rcases Nat.eq_zero_or_pos k with hk0 | hkpos'
  · -- integral case: one fractional digit `0` is printed
    have hmod : n % 10 ^ k = 0 := by
      rw [hk0, pow_zero]
      exact Nat.mod_one n
    have hdivk : n / 10 ^ k = n := by
      rw [hk0, pow_zero]
      exact Nat.div_one n
    have hL : (padZeros k (natToDecChars (n % 10 ^ k))).length = 1 := by
      rw [hmod, hk0]
      rfl
    rw [hL, hmod, hdivk]
    have harg : ((n : ℤ) * 10 ^ 1 + (decCharsToNat ['0'] : ℤ)) = 10 * n := by
      rw [show (decCharsToNat ['0'] : ℤ) = 0 from rfl]
      ring
    congr 1
    show mkRat ((n : ℤ) * 10 ^ 1 + (decCharsToNat ['0'] : ℤ)) (10 ^ 1) = q
    rw [harg, Rat.mkRat_eq_div]
    push_cast
    rw [hkey, hk0]
    norm_num
  · -- at least one fractional digit: exactly `k` are printed
    have hL : (padZeros k (natToDecChars (n % 10 ^ k))).length = k :=
      padZeros_length (natToDecChars_len _ _ hfrac_lt hkpos')
    rw [hL]
    have hnat : n / 10 ^ k * 10 ^ k + n % 10 ^ k = n := Nat.div_add_mod' n (10 ^ k)
    have harg : ((n / 10 ^ k : ℕ) : ℤ) * 10 ^ k + ((n % 10 ^ k : ℕ) : ℤ) = (n : ℤ) := by
      exact_mod_cast hnat
    congr 1
    show mkRat (((n / 10 ^ k : ℕ) : ℤ) * 10 ^ k + ((n % 10 ^ k : ℕ) : ℤ)) (10 ^ k) = q
    rw [harg, Rat.mkRat_eq_div]
    push_cast
    rw [hkey]
    have h10k : ((10 : ℚ) ^ k) ≠ 0 := by positivity
    field_simp

theorem decodeCsvRow_encodeCsvRow (e : Expense) (h0 : 0 ≤ e.amount)
    (hd : ∃ m, (e.amount.den : ℕ) ∣ 10 ^ m) :
    decodeCsvRow (encodeCsvRow e) = some e := by
  have hred : decodeCsvRow (encodeCsvRow e) =
      (decParse (ratToDecString e.amount)).map
        (fun q => ⟨e.date, q, e.category, e.vendor, e.description⟩) := rfl
  rw [hred, decParse_ratToDecString e.amount h0 hd]
  rfl

theorem decodeJsonObj_encodeJsonObj (e : Expense) :
    decodeJsonObj (encodeJsonObj e) = some e := by
  cases e
  rfl

theorem mapM_decode_encode {α : Type} (enc : Expense → α)
    (dec : α → Option Expense) (l : List Expense)
    (h : ∀ e ∈ l, dec (enc e) = some e) :
    (l.map enc).mapM dec = some l := by
  induction l with
  | nil => rfl
  | cons e tl ih =>
    have hi := ih fun x hx => h x (List.mem_cons_of_mem _ hx)
    rw [List.map_cons, List.mapM_cons, h e (List.mem_cons_self _ _), hi]
    rfl

/-- C8: persisting the in-memory list and reloading it restores the list
field for field, in both formats.  Amounts carry the float well-formedness
facts (nonnegative and finite decimal value).  For the tabular format,
saving an empty list leaves the file untouched, so the claim needs the
store invariant that an empty store's backing file reads back empty (an
absent, empty or unreadable file — all reloading as `[]`). -/
theorem C8_save_load_round_trip :
    (∀ (l : List Expense) (f : Option (List (List String))),
      (∀ e ∈ l, 0 ≤ e.amount ∧ ∃ m, (e.amount.den : ℕ) ∣ 10 ^ m) →
      (l = [] → loadFromCsv f = []) →
      loadFromCsv (saveToCsv l f) = l) ∧
    (∀ (l : List Expense) (f : Option (List (List (String × JValue)))),
      loadFromJson (saveToJson l f) = l) := by
  constructor
  · intro l f hwf hemp
    cases l with
    | nil =>
      simp only [saveToCsv, List.isEmpty_nil, if_true]
      exact hemp rfl
    | cons e tl =>
      have hmapM : ((e :: tl).map encodeCsvRow).mapM decodeCsvRow = some (e :: tl) :=
        mapM_decode_encode _ _ _ fun x hx =>
          decodeCsvRow_encodeCsvRow x (hwf x hx).1 (hwf x hx).2
      calc loadFromCsv (saveToCsv (e :: tl) f)
          = (((e :: tl).map encodeCsvRow).mapM decodeCsvRow).getD [] := rfl
        _ = (some (e :: tl)).getD [] := by rw [hmapM]
        _ = e :: tl := rfl
  · intro l f
    have hmapM : (l.map encodeJsonObj).mapM decodeJsonObj = some l :=
      mapM_decode_encode _ _ _ fun x _ => decodeJsonObj_encodeJsonObj x
    calc loadFromJson (saveToJson l f)
        = ((l.map encodeJsonObj).mapM decodeJsonObj).getD [] := rfl
      _ = (some l).getD [] := by rw [hmapM]
      _ = l := rfl

/-- C8 witness: a one-record store, saved into a fresh file and reloaded,
in both formats. -/
theorem C8_witness :
    (∀ e ∈ [(⟨"2024-01-15", mkRat 837 100, "Gas", "Shell", "fill"⟩ : Expense)],
      0 ≤ e.amount ∧ ∃ m, (e.amount.den : ℕ) ∣ 10 ^ m) ∧
    loadFromCsv (saveToCsv
        [(⟨"2024-01-15", mkRat 837 100, "Gas", "Shell", "fill"⟩ : Expense)] none) =
      [(⟨"2024-01-15", mkRat 837 100, "Gas", "Shell", "fill"⟩ : Expense)] ∧
    loadFromJson (saveToJson
        [(⟨"2024-01-15", mkRat 837 100, "Gas", "Shell", "fill"⟩ : Expense)] none) =
      [(⟨"2024-01-15", mkRat 837 100, "Gas", "Shell", "fill"⟩ : Expense)] :=
  have hwf : ∀ e ∈ [(⟨"2024-01-15", mkRat 837 100, "Gas", "Shell", "fill"⟩ : Expense)],
      0 ≤ e.amount ∧ ∃ m, (e.amount.den : ℕ) ∣ 10 ^ m := by
    intro e he
    rw [List.mem_singleton.mp he]
    exact ⟨by decide, 2, by decide⟩
  ⟨hwf,
    C8_save_load_round_trip.1
      [(⟨"2024-01-15", mkRat 837 100, "Gas", "Shell", "fill"⟩ : Expense)] none
      hwf (fun h => absurd h (by decide)),
    C8_save_load_round_trip.2
      [(⟨"2024-01-15", mkRat 837 100, "Gas", "Shell", "fill"⟩ : Expense)] none⟩

end SmartExpense
